import Mathlib

/-!
Verification of the voice-triggered dispatch pipeline of Window2Wonder.

The development shallowly embeds the three core components of the
repository — the endpointing recorder (`src/voice2text.py`,
`VoiceListener.record_audio`), the wake-word detector with per-model
cooldown (`src/wakeWord.py`, `WakeWordListener.start_listening`), and the
concurrent liveness race (`src/display.py`, `is_stream_live`,
`find_first_live_stream`, `display_res`) — and proves or refutes the
specification's claims about them.

Modelling conventions:
* audio chunks carry an abstract payload (`data : Nat`) plus the outcome
  the VAD collaborator produces for them (`VadResult`);
* wall-clock times and model scores are rationals (the code compares
  floats; none of the claims depends on rounding);
* the thread-pool completion order of the liveness race is an explicit
  permutation parameter, since `concurrent.futures.as_completed` yields
  results in an arbitrary order;
* a subprocess probe either completes with a stdout (a list of
  characters) or fails (exception or timeout), captured by `ProbeResult`.
-/

/-! ## Endpointer: `VoiceListener.record_audio` (src/voice2text.py) -/

/-- Outcome of `self.vad.is_speech(chunk, self.RATE)` for one chunk:
either a boolean classification, or the call raises. -/
inductive VadResult where
  | ok (b : Bool)
  | failure
deriving DecidableEq, Repr

/-- One audio chunk as the recorder sees it: an abstract payload
(`data`) identifying the chunk, and what the VAD collaborator answers
for it. -/
structure Chunk where
  data : Nat
  vad : VadResult
deriving DecidableEq, Repr

/-- Embeds lines 66–69 of src/voice2text.py:
`try: is_speech = self.vad.is_speech(chunk, self.RATE) except: is_speech = False`.
A raising classification yields `false`. -/
def classifyChunk : VadResult → Bool
  | .ok b => b
  | .failure => false

/-- Embeds `max_silent_chunks = int(self.SILENCE_THRESHOLD * 1000 / self.CHUNK_DURATION_MS)`
(line 57).  Python's `int()` truncates the float quotient toward zero, which
on these magnitudes is Nat division.  In the source
`SILENCE_THRESHOLD = 2.0` seconds and `CHUNK_DURATION_MS = 30`, giving
`int(2000 / 30) = 66`. -/
def maxSilentChunks (silenceTimeoutMs frameDurationMs : Nat) : Nat :=
  silenceTimeoutMs / frameDurationMs

/-- The loop state of `record_audio`: the `audio_data` buffer, the
`silent_chunks` counter and the `voice_detected` flag (lines 54–56). -/
structure RecState where
  audioData : List Nat
  silentChunks : Nat
  voiceDetected : Bool
deriving DecidableEq, Repr

/-- The initial state of `record_audio`: empty buffer, zero silent
chunks, no voice detected. -/
def recInit : RecState := ⟨[], 0, false⟩

/-- The value of `voice_detected` after one loop iteration on chunk `c`
(line 72: set to `True` on a speech chunk, otherwise unchanged). -/
def nextVoice (st : RecState) (c : Chunk) : Bool :=
  classifyChunk c.vad || st.voiceDetected

/-- The value of `silent_chunks` after one loop iteration on chunk `c`
(lines 71–75: reset to 0 on speech, incremented on silence once voice
has been detected, untouched while still idle). -/
def nextSilent (st : RecState) (c : Chunk) : Nat :=
  if classifyChunk c.vad then 0
  else if st.voiceDetected then st.silentChunks + 1
  else st.silentChunks

/-- One iteration of the `while True` loop of `record_audio`
(lines 61–85): read a chunk, append it to `audio_data`
unconditionally (line 63), classify it (lines 66–69), update
`voice_detected` / `silent_chunks` (lines 71–75), and break when
`voice_detected and silent_chunks >= max_silent_chunks` (line 78).
`Sum.inr` is the break (the function then returns
`(audio_data, voice_detected)`), `Sum.inl` continues the loop. -/
def recordStep (maxSilent : Nat) (st : RecState) (c : Chunk) :
    RecState ⊕ (List Nat × Bool) :=
  if nextVoice st c && decide (maxSilent ≤ nextSilent st c) then
    .inr (st.audioData ++ [c.data], nextVoice st c)
  else
    .inl ⟨st.audioData ++ [c.data], nextSilent st c, nextVoice st c⟩

/-- Runs the `record_audio` loop over the chunks the stream will
deliver.  `stream.read` blocks until a chunk is available, so if the
loop has not broken by the time the supplied chunks are exhausted the
call never returns: that is the `none` outcome. -/
def recordAudio (maxSilent : Nat) : RecState → List Chunk → Option (List Nat × Bool)
  | _, [] => none
  | st, c :: rest =>
    match recordStep maxSilent st c with
    | .inr result => some result
    | .inl st1 => recordAudio maxSilent st1 rest

/-- A chunk the VAD classifies as speech. -/
def speechChunk (n : Nat) : Chunk := ⟨n, .ok true⟩

/-- A chunk the VAD classifies as not speech. -/
def silentChunk (n : Nat) : Chunk := ⟨n, .ok false⟩

/-- The frame sequence of the C1 counterexample: one speech chunk
followed by 66 silent chunks, each chunk lasting the code's
`CHUNK_DURATION_MS = 30` milliseconds. -/
def c1Input : List Chunk :=
  speechChunk 0 :: (List.range 66).map (fun n => silentChunk (n + 1))

/-- The frame sequence of the C3 counterexample: one pre-onset silent
chunk, then speech, then 66 silent chunks. -/
def c3Input : List Chunk :=
  silentChunk 7 :: speechChunk 1 :: (List.range 66).map (fun n => silentChunk (n + 2))

/-! ## Wake-word detector: `WakeWordListener.start_listening` (src/wakeWord.py)

The detection loop (lines 83–110) scores each frame, then for every
`(model, score)` pair applies the threshold and the per-model cooldown
against `self.last_detection_time` (a dict from model name to the
`time.time()` of its last trigger), invoking the callback on success.
The dict is modelled as an association list with unique keys updated in
place by `dictInsert`; clock values and scores are rationals. -/

/-- Python dict assignment `d[m] = v` on an association list: replaces
the binding for `m` if present, appends it otherwise. -/
def dictInsert (m : String) (v : ℚ) : List (String × ℚ) → List (String × ℚ)
  | [] => [(m, v)]
  | (k, w) :: rest => if k = m then (m, v) :: rest else (k, w) :: dictInsert m v rest

/-- Embeds the cooldown test of lines 100–101:
`base_model_name not in self.last_detection_time or
current_time - self.last_detection_time[base_model_name] > self.cooldown_time`. -/
def cooldownOk (cd now : ℚ) (last : List (String × ℚ)) (m : String) : Bool :=
  match last.lookup m with
  | none => true
  | some t => decide (cd < now - t)

/-- The full per-model firing condition: score above threshold
(line 98, `prediction > 0.5`) and outside the cooldown window. -/
def triggerCond (thr cd now : ℚ) (last : List (String × ℚ)) (m : String) (s : ℚ) : Bool :=
  decide (thr < s) && cooldownOk cd now last m

/-- Lines 98–107 for a single `(model, score)` pair: when the nested
`if`s both pass, record `last_detection_time[base] = current_time` and
invoke the callback (the returned flag); otherwise leave the dict
untouched and stay silent. -/
def modelStep (thr cd now : ℚ) (last : List (String × ℚ)) (m : String) (s : ℚ) :
    List (String × ℚ) × Bool :=
  if triggerCond thr cd now last m s then (dictInsert m now last, true)
  else (last, false)

/-- The `for model_name, prediction in predictions.items()` loop of
lines 93–107 over one frame: threads the dict through the per-model
steps and collects the models whose callback fired, in order. -/
def processFrame (thr cd now : ℚ) :
    List (String × ℚ) → List (String × ℚ) → List (String × ℚ) × List String
  | last, [] => (last, [])
  | last, (m, s) :: rest =>
    ((processFrame thr cd now (modelStep thr cd now last m s).1 rest).1,
      (if (modelStep thr cd now last m s).2 then [m] else []) ++
        (processFrame thr cd now (modelStep thr cd now last m s).1 rest).2)

/-! ## Liveness race: `is_stream_live`, `find_first_live_stream`,
`display_res` (src/display.py)

`find_first_live_stream` submits one `is_stream_live` check per url to
a thread pool and walks `concurrent.futures.as_completed`, returning
the url of the first future whose result is `True` (cancelling the
rest) and `None` when every result is `False`.  `as_completed` yields
the futures in completion order — an arbitrary permutation of the
submitted urls — so the embedding takes that order as an explicit
parameter and walks it sequentially, also counting how many results the
collector consumes.

`is_stream_live` runs a `yt-dlp` subprocess with a 10 s timeout and
reports whether the literal substring `"True"` occurs in its stdout;
any exception (including `TimeoutExpired`) is caught and counted as
`False`.  A probe therefore either completes with a stdout or fails. -/

/-- Outcome of the `subprocess.run` probe inside `is_stream_live`:
either it completes within the 10 s timeout with some stdout, or it
raises (timeout, missing binary, any exception). -/
inductive ProbeResult where
  | ok (stdout : List Char)
  | err
deriving DecidableEq, Repr

/-- `needle.listStartsWith hay`: the needle is an initial segment of
the haystack (character-wise Python string comparison). -/
def listStartsWith : List Char → List Char → Bool
  | [], _ => true
  | _ :: _, [] => false
  | a :: as, b :: bs => a == b && listStartsWith as bs

/-- Python's substring test `needle in hay`: scan every suffix of the
haystack for one starting with the needle. -/
def containsSub (needle : List Char) : List Char → Bool
  | [] => needle.isEmpty
  | b :: bs => listStartsWith needle (b :: bs) || containsSub needle bs

/-- Embeds `is_stream_live` (src/display.py lines 19–35): on a
completed probe, `"True" in result.stdout`; on any exception the
`except` arm prints and returns `False`. -/
def is_stream_live (probe : ProbeResult) : Bool :=
  match probe with
  | .ok out => containsSub "True".toList out
  | .err => false

/-- The `as_completed` collector loop of `find_first_live_stream`
(lines 47–61) over the completion order: return the first url whose
check came back `True`, counting how many results were consumed; when
the order is exhausted return `None`. -/
def collectFirstLive (isLive : String → Bool) : List String → Option String × Nat
  | [] => (none, 0)
  | u :: rest =>
    if isLive u then (some u, 1)
    else ((collectFirstLive isLive rest).1, (collectFirstLive isLive rest).2 + 1)

/-- `find_first_live_stream` proper: the url the race resolves to. -/
def find_first_live_stream (isLive : String → Bool)
    (completionOrder : List String) : Option String :=
  (collectFirstLive isLive completionOrder).1

/-- What `display_res` (lines 8–17) hands to its collaborators after
the race: on a winning url the code executes `return os.system()` — an
invocation of the display/playback step carrying no argument at all
(the winning url appears only in a print) — and on no winner it prints
and returns `None`. -/
inductive DispatchOutcome where
  | playCall (args : List String)
  | noStream
deriving DecidableEq, Repr

/-- Embeds `display_res`: run the race over the urls; if a live url is
found, invoke playback with the (empty) argument list the code actually
passes; otherwise report no active stream. -/
def display_res (isLive : String → Bool) (completionOrder : List String) :
    DispatchOutcome :=
  match find_first_live_stream isLive completionOrder with
  | some _ => .playCall []
  | none => .noStream

/-! ### Helper lemmas for the recorder -/

/-- If an iteration continues the loop, the new state is exactly the
buffer extended by the chunk together with the updated counters. -/
lemma recordStep_inl (maxSilent : Nat) (st : RecState) (c : Chunk) (st1 : RecState)
    (h : recordStep maxSilent st c = .inl st1) :
    st1 = ⟨st.audioData ++ [c.data], nextSilent st c, nextVoice st c⟩ := by
  unfold recordStep at h
  split at h
  · exact absurd h (by simp)
  · exact (Sum.inl.inj h).symm

/-- If an iteration breaks the loop, the returned value is the extended
buffer paired with the updated `voice_detected` flag. -/
lemma recordStep_inr (maxSilent : Nat) (st : RecState) (c : Chunk) (r : List Nat × Bool)
    (h : recordStep maxSilent st c = .inr r) :
    r = (st.audioData ++ [c.data], nextVoice st c) := by
  unfold recordStep at h
  split at h
  · exact (Sum.inr.inj h).symm
  · exact absurd h (by simp)

/-- An iteration breaks the loop exactly when, after this chunk's
update, voice has been detected and the silent-chunk counter has
reached `max_silent_chunks`. -/
lemma recordStep_breaks_iff (maxSilent : Nat) (st : RecState) (c : Chunk) :
    (∃ r, recordStep maxSilent st c = .inr r) ↔
      (nextVoice st c = true ∧ maxSilent ≤ nextSilent st c) := by
  unfold recordStep
  rcases hv : nextVoice st c <;> rcases hm : decide (maxSilent ≤ nextSilent st c) <;>
    simp_all

/-- A silent chunk seen while `voice_detected` is still false neither
stops the loop nor changes the counters: only the buffer grows. -/
lemma recordStep_silent_idle (maxSilent : Nat) (buf : List Nat) (k : Nat) (c : Chunk)
    (hc : classifyChunk c.vad = false) :
    recordStep maxSilent ⟨buf, k, false⟩ c = .inl ⟨buf ++ [c.data], k, false⟩ := by
  simp [recordStep, nextVoice, nextSilent, hc]

/-- If the loop breaks, the returned buffer extends the buffer the
state already held (nothing is ever discarded from `audio_data`). -/
lemma recordAudio_buffer_extends (maxSilent : Nat) :
    ∀ (chunks : List Chunk) (st : RecState) (buf : List Nat) (b : Bool),
      recordAudio maxSilent st chunks = some (buf, b) →
      ∃ p, buf = st.audioData ++ p := by
  intro chunks
  induction chunks with
  | nil => intro st buf b h; simp [recordAudio] at h
  | cons c rest ih =>
    intro st buf b h
    simp only [recordAudio] at h
    rcases hstep : recordStep maxSilent st c with st1 | result
    · rw [hstep] at h
      obtain ⟨p, hp⟩ := ih st1 buf b h
      have hbuf := recordStep_inl maxSilent st c st1 hstep
      exact ⟨c.data :: p, by simp [hp, hbuf]⟩
    · rw [hstep] at h
      have hres := recordStep_inr maxSilent st c result hstep
      simp only [Option.some.injEq] at h
      refine ⟨[c.data], ?_⟩
      have : result.1 = buf := by rw [h]
      rw [← this, hres]

/-- Running the loop from a not-yet-triggered state over chunks none of
which is classified as speech never breaks out of the loop. -/
lemma recordAudio_all_silent (maxSilent : Nat) :
    ∀ (chunks : List Chunk), (∀ c ∈ chunks, classifyChunk c.vad = false) →
      ∀ (buf : List Nat) (k : Nat),
        recordAudio maxSilent ⟨buf, k, false⟩ chunks = none := by
  intro chunks
  induction chunks with
  | nil => intro _ _ _; rfl
  | cons c rest ih =>
    intro hall buf k
    have hc : classifyChunk c.vad = false := hall c (by simp)
    simp only [recordAudio, recordStep_silent_idle maxSilent buf k c hc]
    exact ih (fun x hx => hall x (by simp [hx])) (buf ++ [c.data]) k

/-! ### Claim C1 — silence-timeout boundary -/

/-- Claim C1 counterexample.  With the code's own parameters
(`SILENCE_THRESHOLD = 2.0` s, `CHUNK_DURATION_MS = 30`,
so `max_silent_chunks = int(2000 / 30) = 66`), the recorder stops after
a speech chunk followed by only 66 silent chunks — it consumes the whole
input and returns — even though the accumulated trailing silence is
66 · 30 = 1980 ms, strictly less than the 2000 ms timeout.  This refutes
"the recorder does not stop while the accumulated consecutive trailing
silence is strictly less than the silence timeout". -/
theorem record_audio_stops_below_timeout :
    recordAudio (maxSilentChunks 2000 30) recInit c1Input =
      some (c1Input.map Chunk.data, true) ∧
      66 * 30 < 2000 := by
  constructor
  · decide
  · decide

/-- Claim C1 (amended): once voice has been detected, recording stops
exactly when `silent_chunks` reaches
`max_silent_chunks = int(silenceTimeoutMs / frameDurationMs)` — the
truncated quotient — and never before; the threshold coincides with
`consecutiveSilentFrames * frameDurationMs >= silenceTimeoutMs` exactly
when `frameDurationMs` divides `silenceTimeoutMs` (as in the spec's
80 ms example, but not at the code's 30 ms chunks). -/
theorem record_audio_timeout_boundary (tMs dMs : Nat) (hd : 0 < dMs)
    (st : RecState) (c : Chunk) :
    ((∃ r, recordStep (maxSilentChunks tMs dMs) st c = .inr r) ↔
      (nextVoice st c = true ∧ maxSilentChunks tMs dMs ≤ nextSilent st c)) ∧
    (dMs ∣ tMs →
      (maxSilentChunks tMs dMs ≤ nextSilent st c ↔ tMs ≤ nextSilent st c * dMs)) := by
  constructor
  · exact recordStep_breaks_iff (maxSilentChunks tMs dMs) st c
  · intro hdvd
    obtain ⟨k, rfl⟩ := hdvd
    unfold maxSilentChunks
    rw [Nat.mul_div_cancel_left k hd]
    constructor
    · intro hk
      calc dMs * k ≤ dMs * nextSilent st c := Nat.mul_le_mul_left dMs hk
        _ = nextSilent st c * dMs := Nat.mul_comm ..
    · intro hk
      refine Nat.le_of_mul_le_mul_left ?_ hd
      calc dMs * k ≤ nextSilent st c * dMs := hk
        _ = dMs * nextSilent st c := Nat.mul_comm ..

/-- Witness for `record_audio_timeout_boundary` at the spec's 80 ms
frame duration and a state with 24 prior silent chunks receiving one
more silent chunk: the recorder stops exactly at the 25th. -/
theorem record_audio_timeout_boundary_witness :
    ((∃ r, recordStep (maxSilentChunks 2000 80) ⟨[], 24, true⟩ (silentChunk 5) = .inr r) ↔
      (nextVoice ⟨[], 24, true⟩ (silentChunk 5) = true ∧
        maxSilentChunks 2000 80 ≤ nextSilent ⟨[], 24, true⟩ (silentChunk 5))) ∧
    ((80 : Nat) ∣ 2000 →
      (maxSilentChunks 2000 80 ≤ nextSilent ⟨[], 24, true⟩ (silentChunk 5) ↔
        2000 ≤ nextSilent ⟨[], 24, true⟩ (silentChunk 5) * 80)) :=
  record_audio_timeout_boundary 2000 80 (by decide) ⟨[], 24, true⟩ (silentChunk 5)

/-! ### Claim C2 — all-silent input -/

/-- Claim C2, evaluated against the code: on a frame sequence with no
speech-classified chunk the `while True` loop never breaks — the
`voice_detected and silent_chunks >= max_silent_chunks` guard requires
`voice_detected` — so `record_audio` never returns at all (it blocks in
`stream.read` forever).  The claimed termination with
`voiceDetected=false` and an empty buffer is unreachable: the function's
only return path has `voice_detected = True`. -/
theorem record_audio_no_speech_never_returns (maxSilent : Nat) (chunks : List Chunk)
    (h : ∀ c ∈ chunks, classifyChunk c.vad = false) :
    recordAudio maxSilent recInit chunks = none :=
  recordAudio_all_silent maxSilent chunks h [] 0

/-- Witness for `record_audio_no_speech_never_returns` on three silent
chunks with the code's `max_silent_chunks = 66`. -/
theorem record_audio_no_speech_never_returns_witness :
    recordAudio (maxSilentChunks 2000 30) recInit
      [silentChunk 0, silentChunk 1, silentChunk 2] = none :=
  record_audio_no_speech_never_returns (maxSilentChunks 2000 30)
    [silentChunk 0, silentChunk 1, silentChunk 2] (by decide)

/-! ### Claim C3 — pre-onset frames and the buffer -/

/-- Claim C3 counterexample.  The chunk `silentChunk 7` arrives before
speech onset (it is the first chunk and is classified as silence), yet
the returned Utterance buffer contains it — indeed the buffer begins
with it — because line 63 (`audio_data.append(chunk)`) runs before the
VAD check on every iteration, Idle included.  This refutes "no frame
that arrives before speech onset appears in the returned Utterance
buffer". -/
theorem record_audio_keeps_preonset_frame :
    recordAudio (maxSilentChunks 2000 30) recInit c3Input =
      some (c3Input.map Chunk.data, true) ∧
      (c3Input.map Chunk.data).head? = some (silentChunk 7).data ∧
      classifyChunk (silentChunk 7).vad = false := by
  refine ⟨by decide, by decide, by decide⟩

/-- Claim C3 (amended): the recorder discards nothing — every chunk
read is appended to the buffer, so the returned Utterance spans from
the start of the call, and in particular begins with the first chunk
read even when that chunk precedes speech onset. -/
theorem record_audio_buffer_starts_at_call (maxSilent : Nat) (c : Chunk)
    (rest : List Chunk) (buf : List Nat) (b : Bool)
    (h : recordAudio maxSilent recInit (c :: rest) = some (buf, b)) :
    buf.head? = some c.data := by
  simp only [recordAudio] at h
  rcases hstep : recordStep maxSilent recInit c with st1 | result
  · rw [hstep] at h
    obtain ⟨p, hp⟩ := recordAudio_buffer_extends maxSilent rest st1 buf b h
    have hst1 := recordStep_inl maxSilent recInit c st1 hstep
    rw [hp, hst1]
    rfl
  · rw [hstep] at h
    have hres := recordStep_inr maxSilent recInit c result hstep
    have h2 : result = (buf, b) := Option.some.inj h
    have hbuf : result.1 = buf := by rw [h2]
    rw [← hbuf, hres]
    rfl

/-- Witness for `record_audio_buffer_starts_at_call`: with
`max_silent_chunks = 0` a single speech chunk already ends the
recording and the buffer's head is that chunk. -/
theorem record_audio_buffer_starts_at_call_witness :
    ([(speechChunk 1).data] : List Nat).head? = some (speechChunk 1).data :=
  record_audio_buffer_starts_at_call 0 (speechChunk 1) [] [(speechChunk 1).data] true
    (by decide)

/-! ### Helper lemmas for the detector -/

lemma lookup_dictInsert_self (m : String) (v : ℚ) (l : List (String × ℚ)) :
    (dictInsert m v l).lookup m = some v := by
  induction l with
  | nil => simp [dictInsert, List.lookup]
  | cons kv rest ih =>
    obtain ⟨k, w⟩ := kv
    by_cases hk : k = m
    · simp [dictInsert, hk, List.lookup]
    · simp only [dictInsert, if_neg hk, List.lookup]
      have : (m == k) = false := by
        simpa [beq_iff_eq] using Ne.symm hk
      simp [this, ih]

lemma lookup_dictInsert_ne (m m1 : String) (v : ℚ) (l : List (String × ℚ))
    (h : m1 ≠ m) :
    (dictInsert m v l).lookup m1 = l.lookup m1 := by
  induction l with
  | nil =>
    have : (m1 == m) = false := by simpa [beq_iff_eq] using h
    simp [dictInsert, List.lookup, this]
  | cons kv rest ih =>
    obtain ⟨k, w⟩ := kv
    by_cases hk : k = m
    · subst hk
      have : (m1 == k) = false := by simpa [beq_iff_eq] using h
      simp [dictInsert, List.lookup, this]
    · simp only [dictInsert, if_neg hk, List.lookup]
      by_cases hk1 : m1 = k
      · simp [hk1]
      · have : (m1 == k) = false := by simpa [beq_iff_eq] using hk1
        simp [this, ih]

lemma triggerCond_iff (thr cd now : ℚ) (last : List (String × ℚ)) (m : String) (s : ℚ) :
    triggerCond thr cd now last m s = true ↔
      (thr < s ∧ ∀ t, last.lookup m = some t → cd < now - t) := by
  unfold triggerCond cooldownOk
  rcases h : last.lookup m with _ | t <;> simp [h]

lemma modelStep_snd (thr cd now : ℚ) (last : List (String × ℚ)) (m : String) (s : ℚ) :
    (modelStep thr cd now last m s).2 = triggerCond thr cd now last m s := by
  unfold modelStep
  by_cases h : triggerCond thr cd now last m s <;> simp [h]

lemma modelStep_fst_lookup_self (thr cd now : ℚ) (last : List (String × ℚ))
    (m : String) (s : ℚ) :
    ((modelStep thr cd now last m s).1).lookup m =
      if (modelStep thr cd now last m s).2 then some now else last.lookup m := by
  unfold modelStep
  by_cases h : triggerCond thr cd now last m s
  · simp [h, lookup_dictInsert_self]
  · simp [h]

lemma modelStep_fst_lookup_ne (thr cd now : ℚ) (last : List (String × ℚ))
    (m : String) (s : ℚ) (m1 : String) (h : m1 ≠ m) :
    ((modelStep thr cd now last m s).1).lookup m1 = last.lookup m1 := by
  unfold modelStep
  by_cases ht : triggerCond thr cd now last m s
  · simp [ht, lookup_dictInsert_ne m m1 now last h]
  · simp [ht]

/-- A model that does not appear among the frame's predictions neither
fires nor has its dict entry touched. -/
lemma processFrame_not_mem (thr cd now : ℚ) :
    ∀ (preds last : List (String × ℚ)) (m : String), m ∉ preds.map Prod.fst →
      m ∉ (processFrame thr cd now last preds).2 ∧
      ((processFrame thr cd now last preds).1).lookup m = last.lookup m := by
  intro preds
  induction preds with
  | nil => intro last m _; simp [processFrame]
  | cons p rest ih =>
    obtain ⟨m0, s0⟩ := p
    intro last m h
    simp only [List.map_cons, List.mem_cons] at h
    push_neg at h
    obtain ⟨hne, hrest⟩ := h
    have ihr := ih (modelStep thr cd now last m0 s0).1 m hrest
    constructor
    · simp only [processFrame, List.mem_append]
      intro hmem
      rcases hmem with h1 | h2
      · rcases hfired : (modelStep thr cd now last m0 s0).2 <;>
          simp [hfired] at h1
        exact hne h1
      · exact ihr.1 h2
    · simp only [processFrame]
      rw [ihr.2, modelStep_fst_lookup_ne thr cd now last m0 s0 m hne]

/-! ### Claim C4 — per-model trigger iff threshold and cooldown pass -/

/-- Claim C4: within one frame whose prediction map has (as a Python
dict does) pairwise-distinct model names, a model triggers exactly when
its score exceeds the threshold and it is either absent from
`last_detection_time` or more than `cooldown_time` past its stored
timestamp; and its stored timestamp becomes `current_time` exactly on a
trigger, staying untouched otherwise. -/
theorem wake_word_trigger_iff (thr cd now : ℚ) (preds : List (String × ℚ))
    (hnd : (preds.map Prod.fst).Nodup) (last : List (String × ℚ))
    (m : String) (s : ℚ) (hm : (m, s) ∈ preds) :
    (m ∈ (processFrame thr cd now last preds).2 ↔
      (thr < s ∧ ∀ t, last.lookup m = some t → cd < now - t)) ∧
    ((processFrame thr cd now last preds).1.lookup m =
      if m ∈ (processFrame thr cd now last preds).2 then some now
      else last.lookup m) := by
  induction preds generalizing last with
  | nil => cases hm
  | cons p rest ih =>
    obtain ⟨m0, s0⟩ := p
    simp only [List.map_cons, List.nodup_cons] at hnd
    obtain ⟨hm0, hndr⟩ := hnd
    rcases List.mem_cons.mp hm with heq | hmr
    · obtain ⟨h1, h2⟩ := Prod.mk.inj heq
      subst h1
      subst h2
      have hnt := processFrame_not_mem thr cd now rest
        (modelStep thr cd now last m s).1 m hm0
      have hmem : m ∈ (processFrame thr cd now last ((m, s) :: rest)).2 ↔
          (modelStep thr cd now last m s).2 = true := by
        simp only [processFrame, List.mem_append]
        constructor
        · intro hx
          rcases hx with h1 | h2
          · rcases hfired : (modelStep thr cd now last m s).2 <;>
              simp [hfired] at h1 ⊢
          · exact absurd h2 hnt.1
        · intro hx
          left
          simp [hx]
      constructor
      · rw [hmem, modelStep_snd]
        exact triggerCond_iff thr cd now last m s
      · have hlook : (processFrame thr cd now last ((m, s) :: rest)).1.lookup m =
            ((modelStep thr cd now last m s).1).lookup m := by
          simp only [processFrame]
          exact hnt.2
        rw [hlook, modelStep_fst_lookup_self]
        by_cases hf : (modelStep thr cd now last m s).2 = true
        · rw [if_pos hf, if_pos (hmem.mpr hf)]
        · rw [if_neg (by simpa using hf), if_neg (fun hx => hf (hmem.mp hx))]
    · have hmkeys : m ∈ rest.map Prod.fst := List.mem_map_of_mem Prod.fst hmr
      have hne : m ≠ m0 := fun hx => hm0 (hx ▸ hmkeys)
      have hstep := modelStep_fst_lookup_ne thr cd now last m0 s0 m hne
      have ihr := ih hndr (modelStep thr cd now last m0 s0).1 hmr
      have hmem : m ∈ (processFrame thr cd now last ((m0, s0) :: rest)).2 ↔
          m ∈ (processFrame thr cd now (modelStep thr cd now last m0 s0).1 rest).2 := by
        simp only [processFrame, List.mem_append]
        constructor
        · intro hx
          rcases hx with h1 | h2
          · rcases hfired : (modelStep thr cd now last m0 s0).2 <;>
              simp [hfired] at h1
            exact absurd h1 hne
          · exact h2
        · intro hx
          right
          exact hx
      constructor
      · rw [hmem, ihr.1, hstep]
      · have hlook : (processFrame thr cd now last ((m0, s0) :: rest)).1.lookup m =
            (processFrame thr cd now (modelStep thr cd now last m0 s0).1 rest).1.lookup m := by
          simp only [processFrame]
        rw [hlook, ihr.2, hstep]
        by_cases hx : m ∈ (processFrame thr cd now (modelStep thr cd now last m0 s0).1 rest).2
        · rw [if_pos hx, if_pos (hmem.mpr hx)]
        · rw [if_neg hx, if_neg (fun hy => hx (hmem.mp hy))]

/-- Witness for `wake_word_trigger_iff`: one model `"alexa"` scoring
0.9 against threshold 0.5 with an empty cooldown dict. -/
theorem wake_word_trigger_iff_witness :
    (("alexa" : String) ∈
        (processFrame (1/2) 2 5 ([] : List (String × ℚ)) [("alexa", 9/10)]).2 ↔
      ((1/2 : ℚ) < 9/10 ∧
        ∀ t, ([] : List (String × ℚ)).lookup "alexa" = some t → (2 : ℚ) < 5 - t)) ∧
    ((processFrame (1/2) 2 5 ([] : List (String × ℚ)) [("alexa", 9/10)]).1.lookup "alexa" =
      if ("alexa" : String) ∈
          (processFrame (1/2) 2 5 ([] : List (String × ℚ)) [("alexa", 9/10)]).2 then some 5
      else ([] : List (String × ℚ)).lookup "alexa") :=
  wake_word_trigger_iff (1/2) 2 5 [("alexa", 9/10)] (by simp) [] "alexa" (9/10)
    (by simp)

/-! ### Claim C9 — CooldownState invariant -/

/-- Across a frame, a model's dict entry is either untouched or set to
`current_time` with the model among the fired callbacks. -/
lemma processFrame_lookup_cases (thr cd now : ℚ) :
    ∀ (preds last : List (String × ℚ)) (m : String),
      ((processFrame thr cd now last preds).1.lookup m = last.lookup m) ∨
      ((processFrame thr cd now last preds).1.lookup m = some now ∧
        m ∈ (processFrame thr cd now last preds).2) := by
  intro preds
  induction preds with
  | nil => intro last m; left; rfl
  | cons p rest ih =>
    obtain ⟨m0, s0⟩ := p
    intro last m
    have hhead : ((modelStep thr cd now last m0 s0).1.lookup m = last.lookup m) ∨
        ((modelStep thr cd now last m0 s0).1.lookup m = some now ∧
          m = m0 ∧ (modelStep thr cd now last m0 s0).2 = true) := by
      by_cases hne : m = m0
      · subst hne
        rcases hf : (modelStep thr cd now last m s0).2
        · left
          rw [modelStep_fst_lookup_self, hf, if_neg (by simp)]
        · right
          refine ⟨?_, rfl, rfl⟩
          rw [modelStep_fst_lookup_self, hf, if_pos rfl]
      · left
        exact modelStep_fst_lookup_ne thr cd now last m0 s0 m hne
    have htail := ih (modelStep thr cd now last m0 s0).1 m
    have hlook : (processFrame thr cd now last ((m0, s0) :: rest)).1.lookup m =
        (processFrame thr cd now (modelStep thr cd now last m0 s0).1 rest).1.lookup m := by
      simp only [processFrame]
    have hev : ∀ x, x ∈ (processFrame thr cd now (modelStep thr cd now last m0 s0).1 rest).2 →
        x ∈ (processFrame thr cd now last ((m0, s0) :: rest)).2 := by
      intro x hx
      simp only [processFrame, List.mem_append]
      right
      exact hx
    rcases htail with ht | ⟨ht, hmem⟩
    · rcases hhead with hh | ⟨hh, rfl, hf⟩
      · left; rw [hlook, ht, hh]
      · right
        refine ⟨by rw [hlook, ht, hh], ?_⟩
        simp only [processFrame, List.mem_append]
        left
        simp [hf]
    · right
      exact ⟨by rw [hlook, ht], hev m hmem⟩

/-- Claim C9: provided every timestamp stored for a model lies in the
past (`time.time()` is monotone, so stored trigger times never exceed
the current read), one `process(frame)` step leaves that model's
last-trigger entry non-decreasing, and the entry changes only when the
model fires a trigger in that frame. -/
theorem cooldown_state_monotone (thr cd now : ℚ) (preds last : List (String × ℚ))
    (m : String) (hpast : ∀ t, last.lookup m = some t → t ≤ now) :
    (∀ t t1, last.lookup m = some t →
      (processFrame thr cd now last preds).1.lookup m = some t1 → t ≤ t1) ∧
    ((processFrame thr cd now last preds).1.lookup m ≠ last.lookup m →
      m ∈ (processFrame thr cd now last preds).2) := by
  rcases processFrame_lookup_cases thr cd now preds last m with hc | ⟨hc, hmem⟩
  · constructor
    · intro t t1 ht ht1
      rw [hc, ht] at ht1
      exact le_of_eq (Option.some.inj ht1)
    · intro hne
      exact absurd hc hne
  · constructor
    · intro t t1 ht ht1
      rw [hc] at ht1
      calc t ≤ now := hpast t ht
        _ = t1 := Option.some.inj ht1
    · intro _
      exact hmem

/-- Witness for `cooldown_state_monotone`: model `"alexa"` over an
empty dict (the past-timestamps hypothesis holds vacuously). -/
theorem cooldown_state_monotone_witness :
    (∀ t t1, ([] : List (String × ℚ)).lookup "alexa" = some t →
      (processFrame (1/2) 2 7 ([] : List (String × ℚ)) [("alexa", 3/4)]).1.lookup "alexa" =
        some t1 → t ≤ t1) ∧
    ((processFrame (1/2) 2 7 ([] : List (String × ℚ)) [("alexa", 3/4)]).1.lookup "alexa" ≠
        ([] : List (String × ℚ)).lookup "alexa" →
      ("alexa" : String) ∈
        (processFrame (1/2) 2 7 ([] : List (String × ℚ)) [("alexa", 3/4)]).2) :=
  cooldown_state_monotone (1/2) 2 7 [("alexa", 3/4)] [] "alexa"
    (fun _ ht => nomatch ht)

/-! ### Helper lemmas for the race -/

lemma listStartsWith_iff : ∀ (n h : List Char), listStartsWith n h = true ↔ n <+: h := by
  intro n
  induction n with
  | nil => intro h; simp [listStartsWith]
  | cons a as ih =>
    intro h
    cases h with
    | nil => simp [listStartsWith]
    | cons b bs =>
      simp only [listStartsWith, Bool.and_eq_true, beq_iff_eq, ih bs,
        List.cons_prefix_cons]

lemma containsSub_iff (n : List Char) : ∀ (h : List Char),
    containsSub n h = true ↔ n <:+: h := by
  intro h
  induction h with
  | nil => simp [containsSub, List.isEmpty_iff, List.infix_nil]
  | cons b bs ih =>
    simp only [containsSub, Bool.or_eq_true, listStartsWith_iff, ih,
      List.infix_cons_iff]

lemma collectFirstLive_fst_eq_find (isLive : String → Bool) :
    ∀ (l : List String), (collectFirstLive isLive l).1 = l.find? isLive := by
  intro l
  induction l with
  | nil => rfl
  | cons u rest ih =>
    by_cases hu : isLive u = true
    · simp [collectFirstLive, hu, List.find?]
    · simp only [Bool.not_eq_true] at hu
      simp [collectFirstLive, hu, List.find?, ih]

/-! ### Claim C5 — race outcome correctness -/

/-- Claim C5: whatever order the concurrent checks complete in (any
permutation of the candidate list), a returned url is one of the input
candidates and its liveness check returned `True`; if every candidate's
check returns `False` the race resolves to `None` after consuming all
results; and on an empty candidate list it resolves to `None`
immediately, with zero checks consumed. -/
theorem find_first_live_stream_correct (urls completionOrder : List String)
    (isLive : String → Bool) (hperm : completionOrder.Perm urls) :
    (∀ u, find_first_live_stream isLive completionOrder = some u →
      u ∈ urls ∧ isLive u = true) ∧
    ((∀ u ∈ urls, isLive u = false) →
      find_first_live_stream isLive completionOrder = none) ∧
    (urls = [] → collectFirstLive isLive completionOrder = (none, 0)) := by
  refine ⟨?_, ?_, ?_⟩
  · intro u hu
    rw [find_first_live_stream, collectFirstLive_fst_eq_find] at hu
    exact ⟨hperm.mem_iff.mp (List.mem_of_find?_eq_some hu), List.find?_some hu⟩
  · intro hall
    rw [find_first_live_stream, collectFirstLive_fst_eq_find]
    refine List.find?_eq_none.mpr ?_
    intro x hx
    rw [hall x (hperm.mem_iff.mp hx)]
    simp
  · intro hnil
    subst hnil
    rw [hperm.eq_nil]
    rfl

/-- Witness for `find_first_live_stream_correct`: candidates
`["a", "b"]` completing in the order `["b", "a"]` with only `"b"`
live. -/
theorem find_first_live_stream_correct_witness :
    (∀ u, find_first_live_stream (fun v => v == "b") ["b", "a"] = some u →
      u ∈ ["a", "b"] ∧ (u == "b") = true) ∧
    ((∀ u ∈ ["a", "b"], (u == "b") = false) →
      find_first_live_stream (fun v => v == "b") ["b", "a"] = none) ∧
    ((["a", "b"] : List String) = [] →
      collectFirstLive (fun v => v == "b") ["b", "a"] = (none, 0)) :=
  find_first_live_stream_correct ["a", "b"] ["b", "a"] (fun v => v == "b")
    (by decide)

/-! ### Claim C7 — per-candidate errors are absorbed -/

/-- Claim C7: a candidate whose probe raises or times out is counted as
not live — `is_stream_live` returns `False` rather than propagating —
and the race simply moves past it to the remaining candidates: its
outcome is whatever the rest of the completion order yields, with one
more result consumed. -/
theorem liveness_error_absorbed (probe : String → ProbeResult) (u : String)
    (rest : List String) (h : probe u = .err) :
    is_stream_live (probe u) = false ∧
    collectFirstLive (fun v => is_stream_live (probe v)) (u :: rest) =
      ((collectFirstLive (fun v => is_stream_live (probe v)) rest).1,
        (collectFirstLive (fun v => is_stream_live (probe v)) rest).2 + 1) := by
  have hdead : is_stream_live (probe u) = false := by rw [h]; rfl
  exact ⟨hdead, by simp [collectFirstLive, hdead]⟩

/-- Witness for `liveness_error_absorbed`: the first candidate's probe
fails while the second is live. -/
theorem liveness_error_absorbed_witness :
    is_stream_live ((fun v => if v == "b" then .ok "True".toList else .err) "a") = false ∧
    collectFirstLive
        (fun v => is_stream_live ((fun w => if w == "b" then .ok "True".toList else .err) v))
        ["a", "b"] =
      ((collectFirstLive
          (fun v => is_stream_live ((fun w => if w == "b" then .ok "True".toList else .err) v))
          ["b"]).1,
        (collectFirstLive
          (fun v => is_stream_live ((fun w => if w == "b" then .ok "True".toList else .err) v))
          ["b"]).2 + 1) :=
  liveness_error_absorbed (fun w => if w == "b" then .ok "True".toList else .err)
    "a" ["b"] (by decide)

/-! ### Claim C10 — exact characterization of `is_stream_live` -/

/-- Claim C10: `is_stream_live` is total over the probe's outcome and
returns `True` exactly when the subprocess completed (within the
timeout, without raising) and the literal substring `"True"` occurs
anywhere in its stdout; in every other case — any exception, any stdout
not containing `"True"` — it returns `False`, never raising. -/
theorem is_stream_live_true_iff (p : ProbeResult) :
    is_stream_live p = true ↔
      ∃ out, p = .ok out ∧ "True".toList <:+: out := by
  cases p with
  | ok out =>
    simp only [is_stream_live, containsSub_iff]
    constructor
    · intro hx
      exact ⟨out, rfl, hx⟩
    · rintro ⟨out1, heq, hx⟩
      cases heq
      exact hx
  | err =>
    simp only [is_stream_live]
    constructor
    · intro hx
      cases hx
    · rintro ⟨out1, heq, _⟩
      cases heq

/-! ### Claim C6 — the dispatch step and the winning url -/

/-- Claim C6, evaluated against the code: with candidates completing as
`["a", "b"]` and only `"b"` live, the race resolves to `"b"`, but the
dispatch `return os.system()` invokes the playback step with no
argument at all — `os.system` requires one, so this is in fact a
`TypeError` — and in particular the winning url `"b"` is not among the
arguments handed to playback, contradicting "the play call receives
exactly the winning url". -/
theorem display_res_drops_winning_url :
    find_first_live_stream (fun u => u == "b") ["a", "b"] = some "b" ∧
    display_res (fun u => u == "b") ["a", "b"] = .playCall [] ∧
    ("b" : String) ∉ ([] : List String) := by
  refine ⟨by decide, by decide, by decide⟩

/-! ### Claim C8 — VAD failures are fail-open -/

/-- Claim C8: a chunk whose VAD classification raises is handled by the
`except` arm as `is_speech = False` — no exception reaches the caller —
and the whole remaining run of the recording loop is indistinguishable
from the run in which the same chunk had been classified as silence:
wherever such a chunk occurs in the input, replacing it by a
silence-classified chunk with the same audio bytes changes nothing. -/
theorem vad_failure_is_silence (maxSilent : Nat) (n : Nat) :
    classifyChunk VadResult.failure = false ∧
    ∀ (st : RecState) (pre post : List Chunk),
      recordAudio maxSilent st (pre ++ ⟨n, VadResult.failure⟩ :: post) =
        recordAudio maxSilent st (pre ++ ⟨n, VadResult.ok false⟩ :: post) := by
  refine ⟨rfl, ?_⟩
  intro st pre post
  induction pre generalizing st with
  | nil =>
    simp only [List.nil_append, recordAudio]
    have hsame : recordStep maxSilent st ⟨n, VadResult.failure⟩ =
        recordStep maxSilent st ⟨n, VadResult.ok false⟩ := rfl
    rw [hsame]
  | cons c rest ih =>
    simp only [List.cons_append, recordAudio]
    cases hstep : recordStep maxSilent st c with
    | inl st1 =>
      simp only [hstep]
      exact ih st1
    | inr r => simp only [hstep]
